import Mathlib

/-!
Shallow embedding of the go-osc repository's OSC 1.0 codec and address-pattern
dispatcher (src/argument.go, src/message.go, src/address_space.go,
src/unnamed/part_004), together with theorems settling the frozen claims.

Conventions of the embedding:
* A Go byte slice / `bytes.Buffer` is a `List Nat` of byte values (< 256 for
  real inputs); reading consumes from the front.
* Machine integers are `Nat`/`Int` with explicit reductions modulo `2 ^ 32` /
  `2 ^ 64` where Go's fixed-width arithmetic wraps.
* A Go `(value, error)` return plus the possibility of a runtime panic is the
  type `DRes α`: `ok value rest` (with the unread remainder of the buffer),
  `err` (a definite Go error value), `crash` (a Go runtime panic).
* Go `float32`/`float64` arguments are carried as their IEEE bit patterns
  (`binary.Write`/`binary.Read` only ever move those bits).
-/

set_option maxRecDepth 2000

namespace GoOSC

/-- Result of running a decoder on a buffer: a value together with the unread
remainder, a Go error return, or a Go runtime panic. -/
inductive DRes (α : Type) where
  | ok (val : α) (rest : List Nat)
  | err
  | crash
deriving DecidableEq

/-- Map over the success value of a `DRes`, keeping the remainder and
propagating errors and panics. -/
def dmap {α β : Type} (f : α → β) : DRes α → DRes β
  | .ok a r => .ok (f a) r
  | .err => .err
  | .crash => .crash

/-- Round up to the next multiple of 4: Go's `(n + 3) &^ 0x03` on a
non-negative count. -/
def pad4 (n : Nat) : Nat := (n + 3) / 4 * 4

/-- Go `uint32(x)` of an integer: reduce into `[0, 2^32)`. -/
def wrapU32 (n : Int) : Nat := (n % (2 ^ 32 : Int)).toNat

/-- Go `uint64(x)` of an integer: reduce into `[0, 2^64)`. -/
def wrapU64 (n : Int) : Nat := (n % (2 ^ 64 : Int)).toNat

/-- Go `int64(x)`: wrap an integer into `[-2^63, 2^63)` (Go signed overflow
wraps). -/
def wrapI64 (n : Int) : Int := (n + 2 ^ 63) % 2 ^ 64 - 2 ^ 63

/-- Reinterpret a 32-bit unsigned value as Go `int32`. -/
def asI32 (v : Nat) : Int :=
  if v % 2 ^ 32 < 2 ^ 31 then ((v % 2 ^ 32 : Nat) : Int)
  else ((v % 2 ^ 32 : Nat) : Int) - 2 ^ 32

/-- Reinterpret a 64-bit unsigned value as Go `int64`. -/
def asI64 (v : Nat) : Int :=
  if v % 2 ^ 64 < 2 ^ 63 then ((v % 2 ^ 64 : Nat) : Int)
  else ((v % 2 ^ 64 : Nat) : Int) - 2 ^ 64

/-- The 4 big-endian bytes of a 32-bit value (`binary.Write` with
`binary.BigEndian`). -/
def be4 (v : Nat) : List Nat :=
  [v / 2 ^ 24 % 256, v / 2 ^ 16 % 256, v / 2 ^ 8 % 256, v % 256]

/-- The 8 big-endian bytes of a 64-bit value. -/
def be8 (v : Nat) : List Nat :=
  [v / 2 ^ 56 % 256, v / 2 ^ 48 % 256, v / 2 ^ 40 % 256, v / 2 ^ 32 % 256,
   v / 2 ^ 24 % 256, v / 2 ^ 16 % 256, v / 2 ^ 8 % 256, v % 256]

/-- Big-endian value of a byte list. -/
def beToNat (l : List Nat) : Nat := l.foldl (fun a b => a * 256 + b) 0

/-- `binary.Read` of a `w`-byte big-endian word from a buffer: `io.EOF` /
`io.ErrUnexpectedEOF` (both Go error returns) when fewer than `w` bytes
remain. -/
def readWord (w : Nat) (buf : List Nat) : DRes Nat :=
  if buf.length < w then .err else .ok (beToNat (buf.take w)) (buf.drop w)

/-! ### TimeTag (src/argument.go lines 20-52, 249-290)

Go `time.Time` is modelled as the wall-clock instant it denotes: `nanos`
nanoseconds since the Unix epoch (the codec only ever consults `Unix()`,
`UnixNano()` and rebuilds times with `time.Unix(sec, nsec).In(time.UTC)`,
all of which are determined by that instant). -/

/-- Difference in seconds between the Unix epoch (1970) and OSC epoch (1900). -/
def unixOSCEpochOffset : Int := 2208988800

/-- Number of nanoseconds in 1 second. -/
def nanosPerSecond : Int := 1000000000

/-- A wall-clock instant: nanoseconds since the Unix epoch. -/
structure GoTime where
  nanos : Int
deriving DecidableEq

/-- Go `t.Unix()`: seconds since the Unix epoch (floor division, since
`time.Time` keeps a non-negative nanosecond remainder). -/
def GoTime.unix (t : GoTime) : Int := Int.fdiv t.nanos nanosPerSecond

/-- Go `t.UnixNano()`: the instant in nanoseconds as an `int64` (wraps when
out of range). -/
def GoTime.unixNano (t : GoTime) : Int := wrapI64 t.nanos

/-- The zero `time.Time` (January 1, year 1, 00:00:00 UTC) as an instant. -/
def goZeroTime : GoTime := ⟨-62135596800 * 1000000000⟩

/-- TimeTag represents an OSC time tag with an underlying Go time.Time and an
"immediate" flag. -/
structure TimeTag where
  time : GoTime
  Immediate : Bool
deriving DecidableEq

/-- NewTimeTag returns a TimeTag with the specified time. -/
def NewTimeTag (t : GoTime) : TimeTag := ⟨t, false⟩

/-- NewImmediateTimeTag returns a TimeTag representing immediate execution. -/
def NewImmediateTimeTag : TimeTag := ⟨goZeroTime, true⟩

/-- encodeTimeTag converts a TimeTag to a 64-bit OSC timetag.
`timeOSCSecs<<32 | timeOSCNanos&0xFFFFFFFF` on `uint64` is written as
`(secs % 2^32) * 2^32 + nanos % 2^32`: the shifted word's low 32 bits are
zero, so the bitwise or is that sum, and the shift discards the high bits of
`secs` exactly as `% 2^32` does. The `uint64` subtraction wraps modulo
`2^64`. -/
def encodeTimeTag (tt : TimeTag) : List Nat :=
  let t64 : Nat :=
    if tt.Immediate then 1
    else
      let timeOSCSecs : Nat := wrapU64 (tt.time.unix + unixOSCEpochOffset)
      let timeOSCNanos : Nat :=
        (wrapU64 (tt.time.unixNano + unixOSCEpochOffset * nanosPerSecond) +
          2 ^ 64 - timeOSCSecs * 1000000000 % 2 ^ 64) % 2 ^ 64
      (timeOSCSecs % 2 ^ 32) * 2 ^ 32 + timeOSCNanos % 2 ^ 32
  be8 t64

/-- decodeTimeTag reads a 64-bit OSC timetag: the value 1 is the immediate
sentinel, otherwise the high word is seconds since the OSC epoch and the low
word is fed to `time.Unix` as a nanosecond count. -/
def decodeTimeTag (buf : List Nat) : DRes TimeTag :=
  match readWord 8 buf with
  | .ok v rest =>
      if v = 1 then .ok NewImmediateTimeTag rest
      else
        .ok (NewTimeTag
          ⟨(((v / 2 ^ 32 : Nat) : Int) - unixOSCEpochOffset) * nanosPerSecond +
            ((v % 2 ^ 32 : Nat) : Int)⟩) rest
  | .err => .err
  | .crash => .crash

/-! ### String and blob wire primitives (src/argument.go lines 130-158, 224-244, 292-337) -/

/-- padTo32Bits pads a byte slice to 32 bits by appending zero bytes. -/
def padTo32Bits (data : List Nat) : List Nat :=
  data ++ List.replicate (pad4 data.length - data.length) 0

/-- encodeString converts a byte string to a 32-bit padded OSC string. -/
def encodeString (s : List Nat) : List Nat := padTo32Bits (s ++ [0])

/-- encodeByteSlice converts a byte slice to an OSC blob: `int32` length,
data, padding. -/
def encodeByteSlice (data : List Nat) : List Nat :=
  padTo32Bits (be4 (data.length % 2 ^ 32) ++ data)

/-- `buf.ReadString('\x00')` followed by `strings.Trim(.., "\x00")`: the bytes
strictly before the first NUL, and the remainder after that NUL; `none` when
no NUL occurs (Go returns the `io.EOF` error). -/
def readStringNul : List Nat → Option (List Nat × List Nat)
  | [] => none
  | b :: rest =>
      if b = 0 then some ([], rest)
      else
        match readStringNul rest with
        | some (s, r) => some (b :: s, r)
        | none => none

/-- The padding-popping loop of decodeString. `buf.ReadByte()` on an empty
buffer yields byte 0 with `io.EOF`, and the loop only inspects the byte, so
exhaustion is silently accepted; a non-zero byte makes the source format the
error message with `err.Error()` while `err` is nil, a nil-pointer panic. -/
def popPadding : Nat → List Nat → DRes Unit
  | 0, rest => .ok () rest
  | k + 1, [] => popPadding k []
  | k + 1, b :: rest => if b = 0 then popPadding k rest else .crash

/-- decodeString reads a 32-bit padded OSC string from a byte slice. -/
def decodeString (buf : List Nat) : DRes (List Nat) :=
  match readStringNul buf with
  | none => .err
  | some (s, r) =>
      match popPadding (pad4 (s.length + 1) - (s.length + 1)) r with
      | .ok _ rest => .ok s rest
      | .err => .err
      | .crash => .crash

/-- decodeByteSlice reads an OSC blob. The length is read as a signed `int32`;
`nExpected := int((n + 3) &^ 0x03)` is 32-bit arithmetic with the low two bits
cleared; `make([]byte, nExpected)` panics when `nExpected` is negative, and
`data[:n]` panics when `n` is negative. -/
def decodeByteSlice (buf : List Nat) : DRes (List Nat) :=
  match readWord 4 buf with
  | .ok v rest =>
      let n : Int := asI32 v
      if n = 0 then .ok [] rest
      else
        let u : Nat := wrapU32 (n + 3)
        let nExpected : Int := asI32 (u - u % 4)
        if nExpected < 0 then .crash
        else if rest.length = 0 ∧ nExpected.toNat ≠ 0 then .err
        else if min nExpected.toNat rest.length ≠ nExpected.toNat then .err
        else if n < 0 then .crash
        else .ok ((rest.take nExpected.toNat).take n.toNat) (rest.drop nExpected.toNat)
  | .err => .err
  | .crash => .crash

/-! ### Arguments (src/argument.go lines 54-127, 160-222) -/

/-- The closed set of Go values the codec supports as OSC arguments
(`interface{}` cases of `typeTag` / `encodeArgument` / `readArguments`). -/
inductive Arg where
  | nil
  | int32 (n : Int)
  | float32 (bits : Nat)
  | str (s : List Nat)
  | blob (b : List Nat)
  | bool (b : Bool)
  | int64 (n : Int)
  | float64 (bits : Nat)
  | timeTag (tt : TimeTag)
deriving DecidableEq

/-- typeTag returns the appropriate OSC type tag (as its ASCII byte) for a
value: N i f s b T/F h d t. -/
def typeTagByte : Arg → Nat
  | .nil => 78
  | .int32 _ => 105
  | .float32 _ => 102
  | .str _ => 115
  | .blob _ => 98
  | .bool b => if b then 84 else 70
  | .int64 _ => 104
  | .float64 _ => 100
  | .timeTag _ => 116

/-- encodeArgument converts an argument to its payload bytes; nil and booleans
contribute no bytes. -/
def encodeArgument : Arg → List Nat
  | .nil => []
  | .int32 n => be4 (wrapU32 n)
  | .float32 bits => be4 (bits % 2 ^ 32)
  | .str s => encodeString s
  | .blob b => encodeByteSlice b
  | .bool _ => []
  | .int64 n => be8 (wrapU64 n)
  | .float64 bits => be8 (bits % 2 ^ 64)
  | .timeTag tt => encodeTimeTag tt

/-- One iteration of the readArguments switch for a single tag byte. The
source appends `true` for tag 'F' as well as for 'T' (the boolean-false
defect); an unrecognized tag is a Go error. Sub-decoder errors all surface
as the single "Found malformed argument" error. -/
def readOne (tag : Nat) (buf : List Nat) : DRes Arg :=
  if tag = 84 then .ok (.bool true) buf
  else if tag = 70 then .ok (.bool true) buf
  else if tag = 78 then .ok .nil buf
  else if tag = 105 then dmap (fun v => .int32 (asI32 v)) (readWord 4 buf)
  else if tag = 102 then dmap (fun v => .float32 v) (readWord 4 buf)
  else if tag = 115 then dmap Arg.str (decodeString buf)
  else if tag = 98 then dmap Arg.blob (decodeByteSlice buf)
  else if tag = 104 then dmap (fun v => .int64 (asI64 v)) (readWord 8 buf)
  else if tag = 100 then dmap Arg.float64 (readWord 8 buf)
  else if tag = 116 then dmap Arg.timeTag (decodeTimeTag buf)
  else .err

/-- The iteration of readArguments over the tag bytes after the comma: on any
error the whole call returns the error with no partial list. -/
def readArgsLoop : List Nat → List Nat → DRes (List Arg)
  | [], buf => .ok [] buf
  | t :: ts, buf =>
      match readOne t buf with
      | .ok a buf2 => dmap (fun as => a :: as) (readArgsLoop ts buf2)
      | .err => .err
      | .crash => .crash

/-- readArguments reads the OSC arguments described by the type tag string.
`typeTagString[:1]` on the empty string is an out-of-range slice: a Go runtime
panic. A non-empty string not starting with ',' is the "Malformed type tag
string" error. -/
def readArguments (typeTagString : List Nat) (buf : List Nat) : DRes (List Arg) :=
  match typeTagString with
  | [] => .crash
  | c :: ts => if c ≠ 44 then .err else readArgsLoop ts buf

/-! ### Message (src/message.go) -/

/-- Message represents a single OSC message with address pattern and
arguments. -/
structure Message where
  Address : List Nat
  Arguments : List Arg
deriving DecidableEq

/-- TypeTagString generates the type tag string (as bytes) for the Message
arguments: ',' then one tag byte per argument. -/
def messageTypeTags (m : Message) : List Nat := 44 :: m.Arguments.map typeTagByte

/-- Message.MarshalBinary: padded address, padded type tag string, then each
argument's payload in order. -/
def messageMarshal (m : Message) : List Nat :=
  encodeString m.Address ++ encodeString (messageTypeTags m) ++
    (m.Arguments.map encodeArgument).flatten

/-- Message.UnmarshalBinary / NewMessageFromData: decode the address string,
the type tag string, then the arguments; the first sub-decoder's error (or
panic) is the result. Trailing unread bytes are ignored. -/
def messageUnmarshal (data : List Nat) : DRes Message :=
  match decodeString data with
  | .ok addr r1 =>
      match decodeString r1 with
      | .ok tts r2 => dmap (fun args => Message.mk addr args) (readArguments tts r2)
      | .err => .err
      | .crash => .crash
  | .err => .err
  | .crash => .crash

/-! ### Packets and bundles (src/unnamed/part_004, src/packet.go)

Length facts about the decoders, needed as termination measures for the
mutually recursive packet/bundle decoder below. -/

theorem readStringNul_length {buf s r : List Nat}
    (h : readStringNul buf = some (s, r)) : buf.length = s.length + 1 + r.length := by
  induction buf generalizing s r with
  | nil => simp [readStringNul] at h
  | cons b rest ih =>
      by_cases hb : b = 0
      · simp [readStringNul, hb] at h
        obtain ⟨rfl, rfl⟩ := h
        simp
        omega
      · simp only [readStringNul, hb, if_false] at h
        cases hr : readStringNul rest with
        | none => rw [hr] at h; simp at h
        | some p =>
            rw [hr] at h
            cases p with
            | mk s' r' =>
                simp at h
                obtain ⟨h1, rfl⟩ := h
                have := ih hr
                simp [← h1, this]
                omega

theorem popPadding_length {k : Nat} {l r : List Nat}
    (h : popPadding k l = .ok () r) : r.length ≤ l.length := by
  induction k generalizing l with
  | zero => simp [popPadding] at h; simp [h]
  | succ k ih =>
      cases l with
      | nil =>
          simp only [popPadding] at h
          have := ih h
          simpa using this
      | cons b rest =>
          simp only [popPadding] at h
          by_cases hb : b = 0
          · rw [if_pos hb] at h
            have := ih h
            simp
            omega
          · rw [if_neg hb] at h
            exact absurd h (by simp)

theorem decodeString_length {buf s rest : List Nat}
    (h : decodeString buf = .ok s rest) : rest.length < buf.length := by
  unfold decodeString at h
  cases hn : readStringNul buf with
  | none => rw [hn] at h; simp at h
  | some p =>
      rw [hn] at h
      cases p with
      | mk s' r' =>
          simp only at h
          cases hp : popPadding (pad4 (s'.length + 1) - (s'.length + 1)) r' with
          | ok u r'' =>
              cases u
              rw [hp] at h
              simp at h
              obtain ⟨rfl, rfl⟩ := h
              have h1 := readStringNul_length hn
              have h2 := popPadding_length hp
              omega
          | err => rw [hp] at h; simp at h
          | crash => rw [hp] at h; simp at h

theorem readWord_ok {w : Nat} {buf : List Nat} {v : Nat} {rest : List Nat}
    (h : readWord w buf = .ok v rest) : rest = buf.drop w ∧ w ≤ buf.length := by
  unfold readWord at h
  by_cases hl : buf.length < w
  · rw [if_pos hl] at h; simp at h
  · rw [if_neg hl] at h
    simp at h
    exact ⟨h.2.symm, by omega⟩

theorem decodeTimeTag_length {buf : List Nat} {tt : TimeTag} {rest : List Nat}
    (h : decodeTimeTag buf = .ok tt rest) : rest.length + 8 = buf.length := by
  unfold decodeTimeTag at h
  cases hw : readWord 8 buf with
  | ok v r =>
      rw [hw] at h
      dsimp only at h
      have hr := readWord_ok hw
      obtain ⟨hd, hl⟩ := hr
      subst hd
      by_cases hv : v = 1
      · rw [if_pos hv] at h
        simp at h
        rw [← h.2]
        simp
        omega
      · rw [if_neg hv] at h
        simp at h
        rw [← h.2]
        simp
        omega
  | err => rw [hw] at h; simp at h
  | crash => rw [hw] at h; simp at h

/-- Packet: the sum type over Message and Bundle; a Bundle is a TimeTag plus
an ordered sequence of child Packets. -/
inductive Packet where
  | msg (m : Message)
  | bun (timeTag : TimeTag) (elements : List Packet)

/-- The decoded content of `"#bundle"` (decodeString strips the NUL). -/
def bundleIdBytes : List Nat := [35, 98, 117, 110, 100, 108, 101]

mutual

/-- decodePacket: requires non-empty data of length a multiple of 4; first
byte '/' decodes a Message, '#' a Bundle, anything else is the "Malformed
packet" error. -/
def decodePacket (data : List Nat) : DRes Packet :=
  match data with
  | [] => .err
  | c :: rest =>
      if (c :: rest).length % 4 ≠ 0 then .err
      else if c = 47 then dmap Packet.msg (messageUnmarshal (c :: rest))
      else if c = 35 then
        dmap (fun b => Packet.bun b.1 b.2) (bundleUnmarshal (c :: rest))
      else .err
termination_by (data.length, 1)
decreasing_by
  apply Prod.Lex.right
  omega

/-- Bundle.UnmarshalBinary: check the "#bundle" identifier, read the time tag,
then read length-prefixed child packets until the buffer is exhausted. -/
def bundleUnmarshal (data : List Nat) : DRes (TimeTag × List Packet) :=
  match h1 : decodeString data with
  | .ok id r1 =>
      if id = bundleIdBytes then
        match h2 : decodeTimeTag r1 with
        | .ok tt r2 => dmap (fun es => (tt, es)) (bundleLoop r2)
        | .err => .err
        | .crash => .crash
      else .err
  | .err => .err
  | .crash => .crash
termination_by (data.length, 0)
decreasing_by
  have ha := decodeString_length h1
  have hb := decodeTimeTag_length h2
  apply Prod.Lex.left
  omega

/-- The content loop of Bundle.UnmarshalBinary: an empty buffer at the length
read is `io.EOF` and ends the loop; 1-3 leftover bytes are a (non-EOF) read
error; a child shorter than its declared count is the "Malformed bundle"
error; a child decode error aborts the bundle. -/
def bundleLoop (buf : List Nat) : DRes (List Packet) :=
  if buf = [] then .ok [] []
  else
      match h : readWord 4 buf with
      | .ok count rest =>
          if hc : rest.length < count then .err
          else
            match decodePacket (rest.take count) with
            | .ok p _ => dmap (fun es => p :: es) (bundleLoop (rest.drop count))
            | .err => .err
            | .crash => .crash
      | .err => .err
      | .crash => .crash
termination_by (buf.length, 0)
decreasing_by
  · obtain ⟨hd, hl⟩ := readWord_ok h
    have hrl : rest.length = buf.length - 4 := by rw [hd]; simp
    simp_wf
    apply Prod.Lex.left
    omega
  · obtain ⟨hd, hl⟩ := readWord_ok h
    have hrl : rest.length = buf.length - 4 := by rw [hd]; simp
    simp_wf
    apply Prod.Lex.left
    omega

end

/-! ### Address patterns (src/address_space.go lines 72-96)

`addressPatternToRegexp` is a chain of `strings.Replace(s, old, new, -1)`
calls producing a regular-expression STRING, compiled with `regexp.Compile`
and applied with `Regexp.MatchString`. The Go standard library's regexp is
modelled for the fragment these strings use: literals, `\` escapes of
punctuation, `.` (any character but newline), postfix `*`, groups `(..)` and
alternation `|`. `MatchString` is unanchored: it reports whether ANY
substring of the address matches. -/

/-- Go `strings.Replace(s, old, new, -1)`, leftmost and non-overlapping; the
old string is passed as head and tail so it is never empty. Structural
recursion on a fuel argument initialized to the string length, which every
step strictly decreases (at least one character is consumed per step), so the
fuel never runs out on the initial call. -/
def replaceAllF : Nat → List Char → Char → List Char → List Char → List Char
  | 0, s, _, _, _ => s
  | _ + 1, [], _, _, _ => []
  | fuel + 1, c :: rest, p, pt, repl =>
      if (p :: pt).isPrefixOf (c :: rest) then
        repl ++ replaceAllF fuel (rest.drop pt.length) p pt repl
      else c :: replaceAllF fuel rest p pt repl

/-- Go `strings.Replace(s, old, new, -1)`. -/
def replaceAll (s : List Char) (p : Char) (pt : List Char) (repl : List Char) :
    List Char :=
  replaceAllF s.length s p pt repl

/-- addressPatternToRegexp creates the regular-expression source string for an
address pattern: escape `/`, then `?`→`.`, `*`→`.*`, `![`→`[^`, `{`→`(`,
`}`→`)`, `,`→`|`. -/
def addressPatternToRegexp (p : List Char) : List Char :=
  let r1 := replaceAll p '/' [] [ '\\', '/']
  let r2 := replaceAll r1 '?' [] [ '.']
  let r3 := replaceAll r2 '*' [] [ '.', '*']
  let r4 := replaceAll r3 '!' [ '['] [ '[', '^']
  let r5 := replaceAll r4 '{' [] [ '(']
  let r6 := replaceAll r5 '}' [] [ ')']
  replaceAll r6 ',' [] [ '|']

/-- Regular expressions over characters: the fragment of Go regexp syntax the
compiled address patterns use. -/
inductive RE where
  | emp
  | eps
  | chr (c : Char)
  | dot
  | star (r : RE)
  | cat (r1 r2 : RE)
  | alt (r1 r2 : RE)
deriving DecidableEq

/-- Does the regular expression accept the empty string? -/
def nullable : RE → Bool
  | .emp => false
  | .eps => true
  | .chr _ => false
  | .dot => false
  | .star _ => true
  | .cat a b => nullable a && nullable b
  | .alt a b => nullable a || nullable b

/-- Brzozowski derivative: the residual language after consuming `c`. -/
def deriv (r : RE) (c : Char) : RE :=
  match r with
  | .emp => .emp
  | .eps => .emp
  | .chr d => if c = d then .eps else .emp
  | .dot => if c = '\n' then .emp else .eps
  | .star a => .cat (deriv a c) (.star a)
  | .cat a b =>
      if nullable a then .alt (.cat (deriv a c) b) (deriv b c)
      else .cat (deriv a c) b
  | .alt a b => .alt (deriv a c) (deriv b c)

/-- Does some prefix of the string (the empty one included) match `r` in
full? -/
def rePrefix (r : RE) : List Char → Bool
  | [] => nullable r
  | c :: rest => nullable r || rePrefix (deriv r c) rest

/-- Go `Regexp.MatchString`: does the string CONTAIN a match, i.e. does some
prefix of some suffix match `r`? -/
def reAnywhere (r : RE) : List Char → Bool
  | [] => nullable r
  | c :: rest => rePrefix r (c :: rest) || reAnywhere r rest

/-- The three nonterminals of the modelled regexp grammar: alternation,
concatenation, atom. -/
inductive ParseMode where
  | palt
  | pconcat
  | patom

/-- Recursive-descent parser for the regexp fragment, one fuel-indexed
function over the grammar mode (every recursive call decrements the fuel, and
at most a handful of steps happen per input character, so the initial budget
below never runs out). `palt` parses `concat ('|' alternation)?`; `pconcat`
parses a sequence of starred atoms stopping at `)`, `|` or the end (Go
rejects a doubled repetition operator); `patom` parses an escaped punctuation
character, `.`, a group, or a literal. Character classes `[..]` are outside
the modelled fragment (no claim uses them); a dangling operator is a compile
error. -/
def parseStep : Nat → ParseMode → List Char → Option (RE × List Char)
  | 0, _, _ => none
  | fuel + 1, .palt, s =>
      match parseStep fuel .pconcat s with
      | none => none
      | some (r, rest) =>
          match rest with
          | '|' :: rest2 =>
              match parseStep fuel .palt rest2 with
              | some (r2, rest3) => some (.alt r r2, rest3)
              | none => none
          | _ => some (r, rest)
  | fuel + 1, .pconcat, s =>
      match s with
      | [] => some (.eps, [])
      | ')' :: _ => some (.eps, s)
      | '|' :: _ => some (.eps, s)
      | _ =>
          match parseStep fuel .patom s with
          | none => none
          | some (a, rest) =>
              match rest with
              | '*' :: '*' :: _ => none
              | '*' :: rest2 =>
                  match parseStep fuel .pconcat rest2 with
                  | some (b, rest3) => some (.cat (.star a) b, rest3)
                  | none => none
              | _ =>
                  match parseStep fuel .pconcat rest with
                  | some (b, rest3) => some (.cat a b, rest3)
                  | none => none
  | fuel + 1, .patom, s =>
      match s with
      | [] => none
      | '\\' :: c :: rest =>
          if c.isAlphanum then none else some (.chr c, rest)
      | [ '\\'] => none
      | '.' :: rest => some (.dot, rest)
      | '(' :: rest =>
          match parseStep fuel .palt rest with
          | some (r, ')' :: rest2) => some (r, rest2)
          | _ => none
      | '*' :: _ => none
      | '[' :: _ => none
      | c :: rest => some (.chr c, rest)

/-- `regexp.Compile`: the whole string must parse. -/
def parseRE (s : List Char) : Option RE :=
  match parseStep (4 * s.length + 8) .palt s with
  | some (r, []) => some r
  | _ => none

/-- The matcher `AddressSpace.Handle` compiles at registration and
`AddressSpace.Dispatch` applies to a message address: `none` when the pattern
fails to compile (Handle returns the error), otherwise the unanchored
`MatchString` verdict. -/
def patternMatches (pattern address : String) : Option Bool :=
  (parseRE (addressPatternToRegexp pattern.toList)).map
    (fun r => reAnywhere r address.toList)

/-! ### Validity of encoder inputs

The conditions under which the wire codec round-trips: real byte strings with
no embedded NUL, machine integers in range, float bit patterns of the right
width, blobs whose padded length fits `int32`, no boolean `false` (tag 'F'
decodes to `true`), and time tags the 64-bit fixed-point format can represent
without colliding with the immediate sentinel. -/

/-- Seconds since the OSC epoch of a time tag's instant. -/
def oscSeconds (tt : TimeTag) : Int :=
  Int.fdiv tt.time.nanos nanosPerSecond + unixOSCEpochOffset

/-- Nanosecond remainder of a time tag's instant within its second. -/
def oscFrac (tt : TimeTag) : Int := Int.fmod tt.time.nanos nanosPerSecond

/-- A time tag that survives encode-then-decode: either exactly the value
`NewImmediateTimeTag` builds, or non-immediate with OSC seconds inside the
32-bit word and an encoding distinct from the immediate sentinel 1. -/
def timeTagOK (tt : TimeTag) : Bool :=
  tt == NewImmediateTimeTag ||
    (!tt.Immediate && decide (0 ≤ oscSeconds tt) &&
      decide (oscSeconds tt < 2 ^ 32) &&
      !(decide (oscSeconds tt = 0) && decide (oscFrac tt = 1)))

/-- An argument the codec round-trips. -/
def argOK : Arg → Bool
  | .nil => true
  | .int32 n => decide (-2 ^ 31 ≤ n) && decide (n < 2 ^ 31)
  | .float32 bits => decide (bits < 2 ^ 32)
  | .str s => s.all (fun b => decide (b < 256) && decide (b ≠ 0))
  | .blob b => decide (b.length + 3 < 2 ^ 31)
  | .bool b => b
  | .int64 n => decide (-2 ^ 63 ≤ n) && decide (n < 2 ^ 63)
  | .float64 bits => decide (bits < 2 ^ 64)
  | .timeTag tt => timeTagOK tt

/-- A message the codec round-trips: NUL-free byte address and round-trippable
arguments. -/
def messageOK (m : Message) : Bool :=
  m.Address.all (fun b => decide (b < 256) && decide (b ≠ 0)) &&
    m.Arguments.all argOK

/-! ### Round-trip lemmas for the wire primitives -/

theorem beToNat_be4 {v : Nat} (h : v < 2 ^ 32) : beToNat (be4 v) = v := by
  simp [beToNat, be4, List.foldl]
  omega

theorem beToNat_be8 {v : Nat} (h : v < 2 ^ 64) : beToNat (be8 v) = v := by
  simp [beToNat, be8, List.foldl]
  omega

theorem be4_length (v : Nat) : (be4 v).length = 4 := by simp [be4]

theorem be8_length (v : Nat) : (be8 v).length = 8 := by simp [be8]

theorem readWord_exact {w : Nat} {l : List Nat} (rest : List Nat)
    (h : l.length = w) : readWord w (l ++ rest) = .ok (beToNat l) rest := by
  unfold readWord
  rw [if_neg (by simp [h])]
  rw [List.take_left' h, List.drop_left' h]

theorem readStringNul_append {s : List Nat} (r : List Nat)
    (h : ∀ b ∈ s, b ≠ 0) : readStringNul (s ++ 0 :: r) = some (s, r) := by
  induction s with
  | nil => simp [readStringNul]
  | cons b rest ih =>
      have hb : b ≠ 0 := h b (by simp)
      simp only [List.cons_append, readStringNul, hb, if_false, List.append_eq]
      rw [ih (fun x hx => h x (by simp [hx]))]

theorem popPadding_zeros (k : Nat) (rest : List Nat) :
    popPadding k (List.replicate k 0 ++ rest) = .ok () rest := by
  induction k with
  | zero => simp [popPadding]
  | succ k ih => simp [List.replicate_succ, popPadding, ih]

theorem decodeString_encode {s : List Nat} (rest : List Nat)
    (h : ∀ b ∈ s, b ≠ 0) : decodeString (encodeString s ++ rest) = .ok s rest := by
  have he : encodeString s ++ rest =
      s ++ 0 :: (List.replicate (pad4 (s.length + 1) - (s.length + 1)) 0 ++ rest) := by
    simp [encodeString, padTo32Bits]
  rw [he]
  unfold decodeString
  rw [readStringNul_append _ h]
  dsimp only
  rw [popPadding_zeros]

theorem encodeTimeTag_imm {tt : TimeTag} (him : tt.Immediate = true) :
    encodeTimeTag tt = [0, 0, 0, 0, 0, 0, 0, 1] := by
  simp only [encodeTimeTag, him, if_true]
  norm_num [be8]

theorem encodeTimeTag_nonImm {tt : TimeTag} (him : tt.Immediate = false)
    (h0 : 0 ≤ oscSeconds tt) (h1 : oscSeconds tt < 2 ^ 32) :
    encodeTimeTag tt = be8 ((oscSeconds tt).toNat * 2 ^ 32 + (oscFrac tt).toNat) := by
  obtain ⟨⟨nn⟩, imm⟩ := tt
  simp only at him
  subst him
  simp only [oscSeconds, oscFrac, GoTime.unix, nanosPerSecond, unixOSCEpochOffset] at h0 h1 ⊢
  have hqr := Int.fdiv_add_fmod nn 1000000000
  have hr0 : 0 ≤ Int.fmod nn 1000000000 := Int.fmod_nonneg' _ (by norm_num)
  have hr1 : Int.fmod nn 1000000000 < 1000000000 := Int.fmod_lt_of_pos _ (by norm_num)
  generalize hq : Int.fdiv nn 1000000000 = q at *
  generalize hr : Int.fmod nn 1000000000 = r at *
  obtain ⟨sn, hsn⟩ : ∃ sn : Nat, (q + 2208988800 : Int) = (sn : Int) :=
    ⟨(q + 2208988800).toNat, by omega⟩
  obtain ⟨rn, hrn⟩ : ∃ rn : Nat, r = (rn : Int) := ⟨r.toNat, by omega⟩
  unfold encodeTimeTag
  simp only [Bool.false_eq_true, if_false]
  refine congrArg be8 ?_
  simp only [GoTime.unix, GoTime.unixNano, nanosPerSecond, unixOSCEpochOffset, hq]
  have hB : wrapI64 nn = nn := by unfold wrapI64; omega
  rw [hB]
  have hA : wrapU64 (q + 2208988800) = sn := by unfold wrapU64; omega
  have hC : wrapU64 (nn + 2208988800 * 1000000000) = sn * 1000000000 + rn := by
    unfold wrapU64
    omega
  rw [hA, hC]
  have hq' : (q + 2208988800).toNat = sn := by omega
  have hr' : r.toNat = rn := by omega
  rw [hq', hr']
  omega

theorem decodeTimeTag_encode {tt : TimeTag} (rest : List Nat)
    (h : timeTagOK tt = true) :
    decodeTimeTag (encodeTimeTag tt ++ rest) = .ok tt rest := by
  simp only [timeTagOK, Bool.or_eq_true, beq_iff_eq, Bool.and_eq_true,
    Bool.not_eq_true', Bool.and_eq_false_iff, decide_eq_true_eq,
    Bool.not_eq_true, decide_eq_false_iff_not] at h
  rcases h with h | ⟨⟨⟨him, h0⟩, h1⟩, hne⟩
  · subst h
    rw [encodeTimeTag_imm rfl]
    have h18 : ([0, 0, 0, 0, 0, 0, 0, 1] : List Nat).length = 8 := by decide
    unfold decodeTimeTag
    rw [readWord_exact rest h18]
    have hb1 : beToNat [0, 0, 0, 0, 0, 0, 0, 1] = 1 := by decide
    rw [hb1]
    rfl
  · have him' : tt.Immediate = false := by
      cases hb : tt.Immediate
      · rfl
      · rw [hb] at him; simp at him
    rw [encodeTimeTag_nonImm him' h0 h1]
    have hqr := Int.fdiv_add_fmod tt.time.nanos 1000000000
    have hr0 : 0 ≤ Int.fmod tt.time.nanos 1000000000 := Int.fmod_nonneg' _ (by norm_num)
    have hr1 : Int.fmod tt.time.nanos 1000000000 < 1000000000 :=
      Int.fmod_lt_of_pos _ (by norm_num)
    have hV1 : (oscSeconds tt).toNat * 2 ^ 32 + (oscFrac tt).toNat < 2 ^ 64 := by
      unfold oscSeconds oscFrac nanosPerSecond unixOSCEpochOffset at *
      omega
    have hVne : (oscSeconds tt).toNat * 2 ^ 32 + (oscFrac tt).toNat ≠ 1 := by
      unfold oscSeconds oscFrac nanosPerSecond unixOSCEpochOffset at *
      omega
    have hsec : (((oscSeconds tt).toNat * 2 ^ 32 + (oscFrac tt).toNat) / 2 ^ 32 : Nat) =
        (oscSeconds tt).toNat := by
      unfold oscSeconds oscFrac nanosPerSecond unixOSCEpochOffset at *
      omega
    have hfrac : (((oscSeconds tt).toNat * 2 ^ 32 + (oscFrac tt).toNat) % 2 ^ 32 : Nat) =
        (oscFrac tt).toNat := by
      unfold oscSeconds oscFrac nanosPerSecond unixOSCEpochOffset at *
      omega
    have hnanos : ((((oscSeconds tt).toNat : Int) - unixOSCEpochOffset) * nanosPerSecond +
        ((oscFrac tt).toNat : Int)) = tt.time.nanos := by
      unfold oscSeconds oscFrac nanosPerSecond unixOSCEpochOffset at *
      generalize hq : Int.fdiv tt.time.nanos 1000000000 = q at *
      generalize hr : Int.fmod tt.time.nanos 1000000000 = r at *
      omega
    unfold decodeTimeTag
    rw [readWord_exact rest (be8_length _)]
    rw [beToNat_be8 hV1]
    dsimp only
    rw [if_neg hVne, hsec, hfrac, hnanos]
    cases tt with
    | mk time imm =>
        cases time
        cases him'
        rfl

theorem asI32_ofNat {v : Nat} (h : v < 2 ^ 31) : asI32 v = (v : Int) := by
  unfold asI32
  split <;> omega

theorem asI32_wrapU32 {n : Int} (h0 : -2 ^ 31 ≤ n) (h1 : n < 2 ^ 31) :
    asI32 (wrapU32 n) = n := by
  unfold asI32 wrapU32
  split <;> omega

theorem asI64_wrapU64 {n : Int} (h0 : -2 ^ 63 ≤ n) (h1 : n < 2 ^ 63) :
    asI64 (wrapU64 n) = n := by
  unfold asI64 wrapU64
  split <;> omega

theorem decodeByteSlice_encode {b : List Nat} (rest : List Nat)
    (h : b.length + 3 < 2 ^ 31) :
    decodeByteSlice (encodeByteSlice b ++ rest) = .ok b rest := by
  by_cases hL : b.length = 0
  · have hb : b = [] := List.length_eq_zero.mp hL
    subst hb
    have h4 : ([0, 0, 0, 0] : List Nat).length = 4 := by decide
    have he : encodeByteSlice [] = [0, 0, 0, 0] := by decide
    rw [he]
    unfold decodeByteSlice
    rw [readWord_exact rest h4]
    have hz : beToNat [0, 0, 0, 0] = 0 := by decide
    rw [hz]
    have ha : asI32 0 = 0 := by decide
    dsimp only
    rw [ha]
    rw [if_pos rfl]
  · have hlen4 : (be4 (b.length % 2 ^ 32)).length = 4 := be4_length _
    have hk : pad4 (4 + b.length) - (4 + b.length) = pad4 b.length - b.length := by
      unfold pad4
      omega
    have harr : encodeByteSlice b ++ rest =
        be4 (b.length % 2 ^ 32) ++
          ((b ++ List.replicate (pad4 b.length - b.length) 0) ++ rest) := by
      simp only [encodeByteSlice, padTo32Bits, List.length_append, hlen4, hk,
        List.append_assoc]
    rw [harr]
    unfold decodeByteSlice
    rw [readWord_exact _ hlen4]
    have hbe : beToNat (be4 (b.length % 2 ^ 32)) = b.length := by
      rw [beToNat_be4 (Nat.mod_lt _ (by norm_num))]
      omega
    rw [hbe]
    dsimp only
    have ha : asI32 b.length = (b.length : Int) := asI32_ofNat (by omega)
    rw [ha]
    rw [if_neg (by omega)]
    have hu : wrapU32 ((b.length : Int) + 3) = b.length + 3 := by
      unfold wrapU32
      omega
    rw [hu]
    have hp : b.length + 3 - (b.length + 3) % 4 = pad4 b.length := by
      unfold pad4
      omega
    rw [hp]
    have hpa : asI32 (pad4 b.length) = (pad4 b.length : Int) := by
      refine asI32_ofNat ?_
      unfold pad4
      omega
    rw [hpa]
    rw [if_neg (by omega)]
    have hR : (b ++ List.replicate (pad4 b.length - b.length) 0 ++ rest).length =
        pad4 b.length + rest.length := by
      simp
      unfold pad4
      omega
    have htn : ((pad4 b.length : Int)).toNat = pad4 b.length := Int.toNat_ofNat _
    rw [htn, hR]
    rw [if_neg (by unfold pad4 at *; omega)]
    rw [if_neg (by unfold pad4 at *; omega)]
    rw [if_neg (by omega)]
    have hlb : (b ++ List.replicate (pad4 b.length - b.length) 0).length =
        pad4 b.length := by
      simp
      unfold pad4
      omega
    rw [List.take_left' hlb, List.drop_left' hlb]
    have hbn : ((b.length : Int)).toNat = b.length := Int.toNat_ofNat _
    rw [hbn]
    rw [List.take_left' rfl]

theorem typeTagByte_ne_zero (a : Arg) : typeTagByte a ≠ 0 := by
  cases a <;> simp [typeTagByte]
  split <;> simp

theorem readOne_encode {a : Arg} (rest : List Nat) (h : argOK a = true) :
    readOne (typeTagByte a) (encodeArgument a ++ rest) = .ok a rest := by
  cases a with
  | nil => simp [typeTagByte, encodeArgument, readOne]
  | int32 n =>
      simp only [argOK, Bool.and_eq_true, decide_eq_true_eq] at h
      simp only [typeTagByte, encodeArgument, readOne, if_neg, reduceIte]
      rw [readWord_exact rest (be4_length _)]
      rw [beToNat_be4 (by unfold wrapU32; omega)]
      simp [dmap, asI32_wrapU32 h.1 h.2]
  | float32 bits =>
      simp only [argOK, decide_eq_true_eq] at h
      simp only [typeTagByte, encodeArgument, readOne, reduceIte]
      rw [readWord_exact rest (be4_length _)]
      rw [beToNat_be4 (by omega)]
      simp [dmap]
      omega
  | str s =>
      simp only [argOK, List.all_eq_true, Bool.and_eq_true, decide_eq_true_eq] at h
      simp only [typeTagByte, encodeArgument, readOne, reduceIte]
      rw [decodeString_encode rest (fun b hb => (h b hb).2)]
      simp [dmap]
  | blob b =>
      simp only [argOK, decide_eq_true_eq] at h
      simp only [typeTagByte, encodeArgument, readOne, reduceIte]
      rw [decodeByteSlice_encode rest h]
      simp [dmap]
  | bool bv =>
      cases bv
      · simp [argOK] at h
      · simp [typeTagByte, encodeArgument, readOne]
  | int64 n =>
      simp only [argOK, Bool.and_eq_true, decide_eq_true_eq] at h
      simp only [typeTagByte, encodeArgument, readOne, reduceIte]
      rw [readWord_exact rest (be8_length _)]
      rw [beToNat_be8 (by unfold wrapU64; omega)]
      simp [dmap, asI64_wrapU64 h.1 h.2]
  | float64 bits =>
      simp only [argOK, decide_eq_true_eq] at h
      simp only [typeTagByte, encodeArgument, readOne, reduceIte]
      rw [readWord_exact rest (be8_length _)]
      rw [beToNat_be8 (by omega)]
      simp [dmap]
      omega
  | timeTag tt =>
      simp only [argOK] at h
      simp only [typeTagByte, encodeArgument, readOne, reduceIte]
      rw [decodeTimeTag_encode rest h]
      simp [dmap]

theorem readArgsLoop_encode {args : List Arg} (rest : List Nat)
    (h : args.all argOK = true) :
    readArgsLoop (args.map typeTagByte)
      ((args.map encodeArgument).flatten ++ rest) = .ok args rest := by
  induction args generalizing rest with
  | nil => simp [readArgsLoop]
  | cons a args ih =>
      simp only [List.all_cons, Bool.and_eq_true] at h
      simp only [List.map_cons, List.flatten_cons, readArgsLoop, List.append_assoc]
      rw [readOne_encode _ h.1]
      dsimp only
      rw [ih rest h.2]
      rfl

/-- Claim C1 (amended): the Message round-trip. For every message whose
address is a NUL-free byte string and whose arguments all satisfy `argOK`
(real byte strings without NUL, ints within their width, float bit patterns
within their width, blobs with `length + 3 < 2^31`, boolean `true` only, and
representable time tags), `UnmarshalBinary (MarshalBinary m)` succeeds,
consumes the whole buffer, and returns `m` itself: same address and
element-by-element equal argument sequence. -/
theorem C1_message_roundtrip (m : Message) (h : messageOK m = true) :
    messageUnmarshal (messageMarshal m) = .ok m [] := by
  simp only [messageOK, Bool.and_eq_true, List.all_eq_true, decide_eq_true_eq] at h
  obtain ⟨haddr, hargs⟩ := h
  have hm : messageMarshal m =
      encodeString m.Address ++
        (encodeString (messageTypeTags m) ++
          ((m.Arguments.map encodeArgument).flatten ++ [])) := by
    simp [messageMarshal]
  rw [hm]
  unfold messageUnmarshal
  rw [decodeString_encode _ (fun b hb => (haddr b hb).2)]
  dsimp only
  rw [decodeString_encode _ (by
    intro b hb
    simp only [messageTypeTags] at hb
    rcases List.mem_cons.mp hb with h44 | hmem
    · omega
    · obtain ⟨a, _, ha⟩ := List.mem_map.mp hmem
      rw [← ha]
      exact typeTagByte_ne_zero a)]
  dsimp only
  unfold messageTypeTags readArguments
  dsimp only
  rw [if_neg (by simp)]
  rw [readArgsLoop_encode [] (by simp only [List.all_eq_true]; exact hargs)]
  cases m
  rfl

/-- Claim C1, counterexample to the unamended statement: a message whose only
argument is the boolean `false` marshals to tag 'F', which unmarshals as
`true` - the decoded message differs from the original. -/
theorem C1_counterexample :
    messageUnmarshal (messageMarshal (Message.mk [47] [.bool false])) =
        .ok (Message.mk [47] [.bool true]) [] ∧
      Message.mk [47] [.bool true] ≠ Message.mk [47] [.bool false] := by
  constructor
  · rfl
  · decide

/-- Claim C1, witness: the round-trip theorem applied to a concrete message
exercising every round-trippable argument variant. -/
theorem C1_witness :
    messageUnmarshal (messageMarshal (Message.mk [47, 116]
      [.int32 (-5), .float32 1136656384, .str [104, 105], .blob [1, 2, 3],
        .bool true, .nil, .int64 (-9000000000), .float64 4636737291354636288,
        .timeTag NewImmediateTimeTag,
        .timeTag (NewTimeTag ⟨1514764800000000000⟩)])) =
      .ok (Message.mk [47, 116]
        [.int32 (-5), .float32 1136656384, .str [104, 105], .blob [1, 2, 3],
          .bool true, .nil, .int64 (-9000000000), .float64 4636737291354636288,
          .timeTag NewImmediateTimeTag,
          .timeTag (NewTimeTag ⟨1514764800000000000⟩)]) [] :=
  C1_message_roundtrip _ (by decide)

/-- Claim C7 (amended): every immediate TimeTag encodes to the 8 bytes
00..01, and decode-of-encode returns the original TimeTag for the value
`NewImmediateTimeTag` itself and for every non-immediate TimeTag whose OSC
seconds fit the unsigned 32-bit word and whose encoding is not the immediate
sentinel 1 (an immediate tag carrying a time other than the zero time, a time
outside the representable window, and the one instant that encodes to 1 are
the exceptions the counterexample forces). -/
theorem C7_timetag_roundtrip :
    (∀ tt : TimeTag, tt.Immediate = true →
        encodeTimeTag tt = [0, 0, 0, 0, 0, 0, 0, 1]) ∧
      (∀ rest : List Nat,
        decodeTimeTag (encodeTimeTag NewImmediateTimeTag ++ rest) =
          .ok NewImmediateTimeTag rest) ∧
      (∀ (tt : TimeTag) (rest : List Nat), tt.Immediate = false →
        0 ≤ oscSeconds tt → oscSeconds tt < 2 ^ 32 →
        ¬(oscSeconds tt = 0 ∧ oscFrac tt = 1) →
        decodeTimeTag (encodeTimeTag tt ++ rest) = .ok tt rest) := by
  refine ⟨fun tt him => encodeTimeTag_imm him, fun rest => ?_, ?_⟩
  · exact decodeTimeTag_encode rest (by decide)
  · intro tt rest him h0 h1 hne
    refine decodeTimeTag_encode rest ?_
    unfold timeTagOK
    rw [him]
    simp only [Bool.not_false, Bool.true_and, Bool.or_eq_true, beq_iff_eq,
      Bool.and_eq_true, decide_eq_true_eq, Bool.not_eq_true',
      Bool.and_eq_false_iff, decide_eq_false_iff_not]
    right
    refine ⟨⟨h0, h1⟩, ?_⟩
    by_cases hA : oscSeconds tt = 0
    · right
      intro hB
      exact hne ⟨hA, hB⟩
    · left
      exact hA

/-- Claim C7, counterexample to the unamended statement: the non-immediate
TimeTag one nanosecond after the OSC epoch encodes to the immediate sentinel
00..01 and decodes to `NewImmediateTimeTag`, not to itself. -/
theorem C7_counterexample :
    decodeTimeTag (encodeTimeTag (NewTimeTag ⟨-2208988800000000000 + 1⟩)) =
        .ok NewImmediateTimeTag [] ∧
      NewImmediateTimeTag ≠ NewTimeTag ⟨-2208988800000000000 + 1⟩ := by
  constructor
  · decide
  · decide

/-- Claim C7, witness: the round-trip applied to the immediate tag and to the
concrete non-immediate tag for 2018-01-01T00:00:00Z. -/
theorem C7_witness :
    encodeTimeTag NewImmediateTimeTag = [0, 0, 0, 0, 0, 0, 0, 1] ∧
      decodeTimeTag (encodeTimeTag NewImmediateTimeTag ++ [7]) =
        .ok NewImmediateTimeTag [7] ∧
      decodeTimeTag (encodeTimeTag (NewTimeTag ⟨1514764800000000000⟩) ++ [7]) =
        .ok (NewTimeTag ⟨1514764800000000000⟩) [7] :=
  ⟨C7_timetag_roundtrip.1 NewImmediateTimeTag rfl,
    C7_timetag_roundtrip.2.1 [7],
    C7_timetag_roundtrip.2.2 (NewTimeTag ⟨1514764800000000000⟩) [7] rfl
      (by decide) (by decide) (by decide)⟩

/-- Helper for claim C5: positionwise content of a successful readArguments
loop - a tag byte 'F' (70) at position `i` yields the argument `true` at
position `i`. -/
theorem readArgsLoop_F {tags buf : List Nat} {args : List Arg} {rest : List Nat}
    (h : readArgsLoop tags buf = .ok args rest) :
    ∀ i : Nat, tags[i]? = some 70 → args[i]? = some (.bool true) := by
  induction tags generalizing buf args with
  | nil =>
      intro i hi
      simp at hi
  | cons t ts ih =>
      intro i hi
      simp only [readArgsLoop] at h
      cases hro : readOne t buf with
      | ok a buf2 =>
          rw [hro] at h
          dsimp only at h
          cases hloop : readArgsLoop ts buf2 with
          | ok args' rest' =>
              rw [hloop] at h
              simp only [dmap] at h
              cases h
              cases i with
              | zero =>
                  simp only [List.getElem?_cons_zero, Option.some_inj] at hi
                  subst hi
                  have : readOne 70 buf = .ok (.bool true) buf := rfl
                  rw [this] at hro
                  cases hro
                  simp
              | succ i =>
                  simp only [List.getElem?_cons_succ] at hi ⊢
                  exact ih hloop i hi
          | err => rw [hloop] at h; simp [dmap] at h
          | crash => rw [hloop] at h; simp [dmap] at h
      | err => rw [hro] at h; simp at h
      | crash => rw [hro] at h; simp at h

/-- Claim C5: whenever readArguments succeeds on a type tag string containing
'F' (byte 70) at some position after the comma, the argument produced at that
position is the boolean `true`, not `false` - the boolean-false decode defect
of the source (`case 'F': args = append(args, true)`). -/
theorem C5_false_tag_decodes_true (tags buf : List Nat) (args : List Arg)
    (rest : List Nat) (h : readArguments (44 :: tags) buf = .ok args rest) :
    ∀ i : Nat, tags[i]? = some 70 → args[i]? = some (.bool true) := by
  simp only [readArguments, ne_eq, if_neg, reduceIte] at h
  exact readArgsLoop_F h

/-- Claim C5, witness: decoding the type tag string ",F" on an empty buffer
produces the single argument `true`. -/
theorem C5_witness : [Arg.bool true][0]? = some (.bool true) :=
  C5_false_tag_decodes_true [70] [] [.bool true] [] rfl 0 rfl

/-- The tag bytes the readArguments switch recognizes:
T F N i f s b h d t. -/
def supportedTagBytes : List Nat := [84, 70, 78, 105, 102, 115, 98, 104, 100, 116]

theorem readOne_unsupported {t : Nat} (h : t ∉ supportedTagBytes)
    (buf : List Nat) : readOne t buf = .err := by
  simp only [supportedTagBytes, List.mem_cons, List.not_mem_nil, or_false,
    not_or] at h
  obtain ⟨h1, h2, h3, h4, h5, h6, h7, h8, h9, h10⟩ := h
  unfold readOne
  rw [if_neg h1, if_neg h2, if_neg h3, if_neg h4, if_neg h5, if_neg h6,
    if_neg h7, if_neg h8, if_neg h9, if_neg h10]

theorem readOne_ok_supported {t : Nat} {buf : List Nat} {a : Arg} {b2 : List Nat}
    (h : readOne t buf = .ok a b2) : t ∈ supportedTagBytes := by
  by_contra hmem
  rw [readOne_unsupported hmem] at h
  simp at h

theorem readArgsLoop_ok_supported {tags buf : List Nat} {args : List Arg}
    {rest : List Nat} (h : readArgsLoop tags buf = .ok args rest) :
    ∀ t ∈ tags, t ∈ supportedTagBytes := by
  induction tags generalizing buf args with
  | nil => intro t ht; simp at ht
  | cons t0 ts ih =>
      intro t ht
      simp only [readArgsLoop] at h
      cases hro : readOne t0 buf with
      | ok a buf2 =>
          rw [hro] at h
          dsimp only at h
          cases hloop : readArgsLoop ts buf2 with
          | ok args' rest' =>
              rw [hloop] at h
              simp only [dmap] at h
              cases h
              rcases List.mem_cons.mp ht with rfl | hmem
              · exact readOne_ok_supported hro
              · exact ih hloop t hmem
          | err => rw [hloop] at h; simp [dmap] at h
          | crash => rw [hloop] at h; simp [dmap] at h
      | err => rw [hro] at h; simp at h
      | crash => rw [hro] at h; simp at h

/-- Claim C4 (amended): readArguments error behaviour. A non-empty type tag
string that does not begin with ',' yields the malformed-type-tag error; the
EMPTY type tag string makes the call panic (out-of-range slice
`typeTagString[:1]`), not return an error; a successful decode implies every
tag byte after the comma was in the supported alphabet (an unrecognized tag
never yields a result, and error returns carry no partial argument list); and
a fixed-width payload whose buffer is too short yields the malformed-argument
error. -/
theorem readArgsLoop_append {ts1 buf : List Nat} {args1 : List Arg}
    {b2 : List Nat} (ts2 : List Nat) (h : readArgsLoop ts1 buf = .ok args1 b2) :
    readArgsLoop (ts1 ++ ts2) buf =
      dmap (fun as => args1 ++ as) (readArgsLoop ts2 b2) := by
  induction ts1 generalizing buf args1 with
  | nil =>
      simp only [readArgsLoop] at h
      cases h
      simp only [List.nil_append]
      cases hx : readArgsLoop ts2 b2 <;> simp [dmap]
  | cons t ts ih =>
      simp only [List.cons_append, readArgsLoop, List.append_eq] at h ⊢
      cases hro : readOne t buf with
      | ok a bufx =>
          rw [hro] at h
          dsimp only at h
          cases hloop : readArgsLoop ts bufx with
          | ok argsx b2x =>
              rw [hloop] at h
              simp only [dmap] at h
              cases h
              dsimp only
              rw [ih hloop]
              cases hx : readArgsLoop ts2 b2 <;> simp [dmap]
          | err => rw [hloop] at h; simp [dmap] at h
          | crash => rw [hloop] at h; simp [dmap] at h
      | err => rw [hro] at h; simp at h
      | crash => rw [hro] at h; simp at h

/-- Claim C4 (amended), fourth conjunct's payload widths: the fixed-width
tags and the byte count `binary.Read` (or decodeTimeTag) needs for each -
4 bytes for int32 'i' and float32 'f', 8 bytes for int64 'h', float64 'd'
and time tag 't'. -/
def fixedWidthTag (t w : Nat) : Prop :=
  (t = 105 ∧ w = 4) ∨ (t = 102 ∧ w = 4) ∨ (t = 104 ∧ w = 8) ∨
    (t = 100 ∧ w = 8) ∨ (t = 116 ∧ w = 8)

theorem readOne_short {t w : Nat} {buf : List Nat} (htw : fixedWidthTag t w)
    (hlen : buf.length < w) : readOne t buf = .err := by
  rcases htw with ⟨rfl, rfl⟩ | ⟨rfl, rfl⟩ | ⟨rfl, rfl⟩ | ⟨rfl, rfl⟩ | ⟨rfl, rfl⟩ <;>
    simp [readOne, readWord, decodeTimeTag, dmap, hlen]

theorem C4_readArguments_errors :
    (∀ (c : Nat) (ts buf : List Nat), c ≠ 44 →
        readArguments (c :: ts) buf = .err) ∧
      (∀ buf : List Nat, readArguments [] buf = .crash) ∧
      (∀ (tags buf : List Nat) (args : List Arg) (rest : List Nat),
        readArguments (44 :: tags) buf = .ok args rest →
          ∀ t ∈ tags, t ∈ supportedTagBytes) ∧
      (∀ (ts1 ts2 buf : List Nat) (t w : Nat) (args1 : List Arg) (b2 : List Nat),
        fixedWidthTag t w → readArgsLoop ts1 buf = .ok args1 b2 →
        b2.length < w →
        readArguments (44 :: (ts1 ++ t :: ts2)) buf = .err) := by
  refine ⟨fun c ts buf hc => ?_, fun buf => rfl, ?_, ?_⟩
  · simp [readArguments, hc]
  · intro tags buf args rest h
    simp only [readArguments, ne_eq, if_neg, reduceIte] at h
    exact readArgsLoop_ok_supported h
  · intro ts1 ts2 buf t w args1 b2 htw h1 hlen
    simp only [readArguments, ne_eq, if_neg, reduceIte]
    rw [readArgsLoop_append _ h1]
    simp only [readArgsLoop, readOne_short htw hlen, dmap]
    simp

/-- Claim C4, counterexample to the unamended statement: on the EMPTY type
tag string readArguments panics (Go slices the empty string out of range)
instead of returning the malformed-type-tag error. -/
theorem C4_counterexample : readArguments [] [] = .crash := rfl

/-- Claim C4, witness: the error behaviour at concrete inputs - a type tag
string starting with 'X', the empty string, a successful ",F" decode, a
short int32 payload as the first tag, and a short time-tag payload after an
earlier 'T' tag. -/
theorem C4_witness :
    readArguments [88] [] = .err ∧ readArguments [] [9] = .crash ∧
      70 ∈ supportedTagBytes ∧ readArguments [44, 105] [1, 2] = .err ∧
      readArguments [44, 84, 116] [1, 2, 3, 4] = .err :=
  ⟨C4_readArguments_errors.1 88 [] [] (by decide),
    C4_readArguments_errors.2.1 [9],
    C4_readArguments_errors.2.2.1 [70] [] [.bool true] [] rfl 70 (by decide),
    C4_readArguments_errors.2.2.2 [] [] [1, 2] 105 4 [] [1, 2]
      (Or.inl ⟨rfl, rfl⟩) rfl (by decide),
    C4_readArguments_errors.2.2.2 [84] [] [1, 2, 3, 4] 116 8 [.bool true]
      [1, 2, 3, 4] (by simp [fixedWidthTag]) rfl (by decide)⟩

/-- Claim C3 evaluation: decodeString panics on a non-NUL byte in the padding
region (the source formats the message with `err.Error()` while `err` is nil),
returns an error when the NUL terminator is never found, and succeeds on a
well-formed padded string. -/
theorem C3_decodeString_eval :
    decodeString [97, 0, 88, 0] = .crash ∧
      decodeString [97, 98, 99] = .err ∧
      decodeString [97, 98, 0, 0] = .ok [97, 98] [] := by
  refine ⟨rfl, rfl, rfl⟩

/-- Claim C10: there is an input on which decodeByteSlice panics rather than
returning an error - the 4-byte length 0x80000000 reads as a negative int32
and the slice allocation of negative size panics - so blob decoding is not a
total function into (value, error). -/
theorem C10_decodeByteSlice_panics :
    (∃ buf : List Nat, decodeByteSlice buf = .crash) ∧
      decodeByteSlice [128, 0, 0, 0] = .crash ∧
      asI32 (beToNat [128, 0, 0, 0]) < 0 := by
  refine ⟨⟨[128, 0, 0, 0], rfl⟩, rfl, by decide⟩

/-- Claim C2 (amended): the concrete pattern-matching cases as the compiled
regexps decide them. The compiled regexp is unanchored and MatchString looks
for a substring match, so `/foo/12` DOES match pattern `/foo/?` (its prefix
`/foo/1` matches); the other four cases are as the claim states them. -/
theorem C2_pattern_cases :
    patternMatches "/foo/?" "/foo/1" = some true ∧
      patternMatches "/foo/?" "/foo/12" = some true ∧
      patternMatches "/foo/*" "/foo/bar" = some true ∧
      patternMatches "/a/\x7bx,y,z\x7d" "/a/x" = some true ∧
      patternMatches "/a/\x7bx,y,z\x7d" "/a/y" = some true ∧
      patternMatches "/a/\x7bx,y,z\x7d" "/a/q" = some false :=
  ⟨rfl, rfl, rfl, rfl, rfl, rfl⟩

/-- Claim C2, counterexample: address `/foo/12` matches pattern `/foo/?`
under the source's unanchored MatchString, where the claim says it does
not. -/
theorem C2_counterexample : patternMatches "/foo/?" "/foo/12" = some true := rfl

/-- Claim C6: decodePacket rejects the empty buffer and any buffer whose
length is not a multiple of 4; on aligned non-empty input it decodes as a
Message when the first byte is '/', as a Bundle when it is '#', and errors on
any other first byte. -/
theorem C6_decodePacket_dispatch :
    (∀ data : List Nat, data.length % 4 ≠ 0 ∨ data = [] →
        decodePacket data = .err) ∧
      (∀ data : List Nat, data.length % 4 = 0 → data.head? = some 47 →
        decodePacket data = dmap Packet.msg (messageUnmarshal data)) ∧
      (∀ data : List Nat, data.length % 4 = 0 → data.head? = some 35 →
        decodePacket data =
          dmap (fun b => Packet.bun b.1 b.2) (bundleUnmarshal data)) ∧
      (∀ (data : List Nat) (c : Nat), data.length % 4 = 0 →
        data.head? = some c → c ≠ 47 → c ≠ 35 → decodePacket data = .err) := by
  refine ⟨?_, ?_, ?_, ?_⟩
  · intro data hd
    cases data with
    | nil => simp [decodePacket]
    | cons c rest =>
        rcases hd with hmod | hnil
        · have hm : ¬(rest.length + 1) % 4 = 0 := by simpa using hmod
          simp [decodePacket, hm]
        · simp at hnil
  · intro data hmod hhead
    cases data with
    | nil => simp at hhead
    | cons c rest =>
        simp only [List.head?_cons, Option.some_inj] at hhead
        subst hhead
        have hm : (rest.length + 1) % 4 = 0 := by simpa using hmod
        simp [decodePacket, hm]
  · intro data hmod hhead
    cases data with
    | nil => simp at hhead
    | cons c rest =>
        simp only [List.head?_cons, Option.some_inj] at hhead
        subst hhead
        have hm : (rest.length + 1) % 4 = 0 := by simpa using hmod
        simp [decodePacket, hm]
  · intro data c hmod hhead hc47 hc35
    cases data with
    | nil => simp at hhead
    | cons c0 rest =>
        simp only [List.head?_cons, Option.some_inj] at hhead
        subst hhead
        have hm : (rest.length + 1) % 4 = 0 := by simpa using hmod
        simp [decodePacket, hm, hc47, hc35]

/-- Claim C6, witness: the dispatch behaviour at concrete buffers - an
unaligned buffer, an empty message, an empty bundle, and an unrecognized
first byte. -/
theorem C6_witness :
    decodePacket [0] = .err ∧
      decodePacket [47, 0, 0, 0, 44, 0, 0, 0] =
        dmap Packet.msg (messageUnmarshal [47, 0, 0, 0, 44, 0, 0, 0]) ∧
      decodePacket [35, 98, 117, 110, 100, 108, 101, 0, 0, 0, 0, 0, 0, 0, 0, 1] =
        dmap (fun b => Packet.bun b.1 b.2)
          (bundleUnmarshal [35, 98, 117, 110, 100, 108, 101, 0, 0, 0, 0, 0, 0, 0, 0, 1]) ∧
      decodePacket [65, 0, 0, 0] = .err :=
  ⟨C6_decodePacket_dispatch.1 [0] (Or.inl (by decide)),
    C6_decodePacket_dispatch.2.1 _ (by decide) rfl,
    C6_decodePacket_dispatch.2.2.1 _ (by decide) rfl,
    C6_decodePacket_dispatch.2.2.2 [65, 0, 0, 0] 65 (by decide) rfl (by decide)
      (by decide)⟩

/-- Claim C8: Bundle.UnmarshalBinary checks the "#bundle" identifier and
decodes the time tag, then loops over length-prefixed children: end-of-buffer
at the length read is normal success; a leftover of 1-3 bytes, a child
shorter than its declared 32-bit count, and a child whose Packet decode fails
each abort the whole decode with an error (the error return carries no
partially decoded bundle); a successfully decoded child is consed onto the
elements of the rest of the loop. -/
theorem C8_bundle_unmarshal :
    (∀ (data id r1 : List Nat), decodeString data = .ok id r1 →
        id ≠ bundleIdBytes → bundleUnmarshal data = .err) ∧
      (∀ (data r1 : List Nat) (tt : TimeTag) (r2 : List Nat),
        decodeString data = .ok bundleIdBytes r1 →
        decodeTimeTag r1 = .ok tt r2 →
        bundleUnmarshal data = dmap (fun es => (tt, es)) (bundleLoop r2)) ∧
      bundleLoop [] = .ok [] [] ∧
      (∀ buf : List Nat, buf ≠ [] → buf.length < 4 → bundleLoop buf = .err) ∧
      (∀ (count : Nat) (rest : List Nat), count < 2 ^ 32 → rest.length < count →
        bundleLoop (be4 count ++ rest) = .err) ∧
      (∀ (count : Nat) (child rest2 : List Nat), count < 2 ^ 32 →
        child.length = count → decodePacket child = .err →
        bundleLoop (be4 count ++ (child ++ rest2)) = .err) ∧
      (∀ (count : Nat) (child rest2 : List Nat) (p : Packet) (lrest : List Nat),
        count < 2 ^ 32 → child.length = count →
        decodePacket child = .ok p lrest →
        bundleLoop (be4 count ++ (child ++ rest2)) =
          dmap (fun es => p :: es) (bundleLoop rest2)) := by
  refine ⟨?_, ?_, by simp [bundleLoop], ?_, ?_, ?_, ?_⟩
  · intro data id r1 hds hne
    unfold bundleUnmarshal
    split
    · rename_i id' r1' heq
      rw [hds] at heq
      injection heq with h1 h2
      subst h1
      rw [if_neg hne]
    · rfl
    · rename_i heq
      rw [hds] at heq
      exact absurd heq (by simp)
  · intro data r1 tt r2 hds hdt
    unfold bundleUnmarshal
    split
    · rename_i id' r1' heq
      rw [hds] at heq
      injection heq with h1 h2
      subst h1
      subst h2
      rw [if_pos rfl]
      split
      · rename_i tt' r2' heq2
        rw [hdt] at heq2
        injection heq2 with h3 h4
        subst h3
        subst h4
        rfl
      · rename_i heq2
        rw [hdt] at heq2
        exact absurd heq2 (by simp)
      · rename_i heq2
        rw [hdt] at heq2
        exact absurd heq2 (by simp)
    · rename_i heq
      rw [hds] at heq
      exact absurd heq (by simp)
    · rename_i heq
      rw [hds] at heq
      exact absurd heq (by simp)
  · intro buf hne hlen
    have hrw : readWord 4 buf = .err := by
      unfold readWord
      rw [if_pos hlen]
    unfold bundleLoop
    rw [if_neg hne]
    split
    · rename_i count rest heq
      rw [hrw] at heq
      exact absurd heq (by simp)
    · rfl
    · rename_i heq
      rw [hrw] at heq
      exact absurd heq (by simp)
  · intro count rest hc hlen
    have hrw : readWord 4 (be4 count ++ rest) = .ok count rest := by
      rw [readWord_exact _ (be4_length _), beToNat_be4 hc]
    unfold bundleLoop
    rw [if_neg (by simp [be4])]
    split
    · rename_i count' rest' heq
      rw [hrw] at heq
      injection heq with h1 h2
      subst h1
      subst h2
      rw [dif_pos hlen]
    · rfl
    · rename_i heq
      rw [hrw] at heq
      exact absurd heq (by simp)
  · intro count child rest2 hc hchild hdp
    have hrw : readWord 4 (be4 count ++ (child ++ rest2)) =
        .ok count (child ++ rest2) := by
      rw [readWord_exact _ (be4_length _), beToNat_be4 hc]
    unfold bundleLoop
    rw [if_neg (by simp [be4])]
    split
    · rename_i count' rest' heq
      rw [hrw] at heq
      injection heq with h1 h2
      subst h1
      subst h2
      rw [dif_neg (by simp [hchild])]
      rw [List.take_left' hchild, hdp]
    · rfl
    · rename_i heq
      rw [hrw] at heq
      exact absurd heq (by simp)
  · intro count child rest2 p lrest hc hchild hdp
    have hrw : readWord 4 (be4 count ++ (child ++ rest2)) =
        .ok count (child ++ rest2) := by
      rw [readWord_exact _ (be4_length _), beToNat_be4 hc]
    conv_lhs => unfold bundleLoop
    rw [if_neg (by simp [be4])]
    split
    · rename_i count' rest' heq
      rw [hrw] at heq
      injection heq with h1 h2
      subst h1
      subst h2
      rw [dif_neg (by simp [hchild])]
      rw [List.take_left' hchild, hdp, List.drop_left' hchild]
    · rename_i heq
      rw [hrw] at heq
      exact absurd heq (by simp)
    · rename_i heq
      rw [hrw] at heq
      exact absurd heq (by simp)

/-- Claim C8, witness: the bundle decode steps at concrete buffers - a wrong
identifier, the empty bundle header, a 2-byte leftover, a short child, a
zero-length child (whose empty Packet decode fails), and a well-formed empty
message child. -/
theorem C8_witness :
    bundleUnmarshal [88, 0, 0, 0] = .err ∧
      bundleUnmarshal [35, 98, 117, 110, 100, 108, 101, 0, 0, 0, 0, 0, 0, 0, 0, 1] =
        dmap (fun es => (NewImmediateTimeTag, es)) (bundleLoop []) ∧
      bundleLoop [1, 2] = .err ∧
      bundleLoop (be4 4 ++ [1, 2, 3]) = .err ∧
      bundleLoop (be4 0 ++ ([] ++ [])) = .err ∧
      bundleLoop (be4 8 ++ ([47, 0, 0, 0, 44, 0, 0, 0] ++ [])) =
        dmap (fun es => Packet.msg (Message.mk [47] []) :: es) (bundleLoop []) :=
  ⟨C8_bundle_unmarshal.1 [88, 0, 0, 0] [88] [] rfl (by decide),
    C8_bundle_unmarshal.2.1 _ [0, 0, 0, 0, 0, 0, 0, 1] NewImmediateTimeTag [] rfl rfl,
    C8_bundle_unmarshal.2.2.2.1 [1, 2] (by decide) (by decide),
    C8_bundle_unmarshal.2.2.2.2.1 4 [1, 2, 3] (by decide) (by decide),
    C8_bundle_unmarshal.2.2.2.2.2.1 0 [] [] (by decide) rfl (by simp [decodePacket]),
    C8_bundle_unmarshal.2.2.2.2.2.2 8 [47, 0, 0, 0, 44, 0, 0, 0] []
      (Packet.msg (Message.mk [47] [])) [] (by decide) rfl
      (by simp [decodePacket]; rfl)⟩

end GoOSC
